import Mathlib

/-!
Verification of the device protocol layer of a stream-deck style button
panel driver. The definitions below are a shallow embedding of the
TypeScript class StreamDeckBase (packages/elgato-stream-deck-core/src/models/base.ts):
byte buffers become List Nat (each entry a byte value), the abstract
per-model methods (transformKeyIndex, convertFillImage,
getFillImagePacketLength, getFillImageCommandHeaderLength) become fields of
a Model structure, and transport calls become an explicit output list.
-/

namespace StreamDeck

/-- Key layout direction of a model, field KEY_DIRECTION in the source. -/
inductive KeyDirection
  | ltr
  | rtl
  deriving DecidableEq, Repr

/-- Per-model data: the StreamDeckProperties fields plus the abstract
methods of StreamDeckBase, modelled as function fields. The two packet
geometry methods getFillImagePacketLength and
getFillImageCommandHeaderLength are modelled as the fields
fillImagePacketLength and fillImageCommandHeaderLength. -/
structure Model where
  COLUMNS : Nat
  ROWS : Nat
  ICON_SIZE : Nat
  KEY_DIRECTION : KeyDirection
  transformKeyIndex : Nat → Nat
  convertFillImage : List Nat → Nat → Nat → List Nat
  fillImagePacketLength : Nat
  fillImageCommandHeaderLength : Nat

/-- NUM_KEYS getter: KEY_COLUMNS * KEY_ROWS. -/
def Model.NUM_KEYS (m : Model) : Nat := m.COLUMNS * m.ROWS

/-- ICON_BYTES getter: ICON_SIZE * ICON_SIZE * 3. -/
def Model.ICON_BYTES (m : Model) : Nat := m.ICON_SIZE * m.ICON_SIZE * 3

/-- The error taxonomy relevant to this layer: validation failures
raised before any transport interaction (the source throws TypeError or
RangeError; the spec calls these ValidationError). -/
inductive SDError
  | validation
  deriving DecidableEq, Repr

/-- One outbound transport call: device.sendReport or
device.sendFeatureReport, with its byte payload. -/
inductive Send
  | report (bytes : List Nat)
  | feature (bytes : List Nat)
  deriving DecidableEq, Repr

/-- Edge-triggered key events emitted by the input handler. -/
inductive KeyEvent
  | down (keyIndex : Nat)
  | up (keyIndex : Nat)
  deriving DecidableEq, Repr

/-- Node Buffer.copy of a whole source buffer into target at
targetStart, as used by generateFillImageWrites where the copied region
always fits inside the target. -/
def bufferCopy (target : List Nat) (targetStart : Nat) (src : List Nat) : List Nat :=
  target.take targetStart ++ src ++ target.drop (targetStart + src.length)

/-- writeFillImageCommandHeader from the source: byte 0 gets 0x02,
byte 1 gets 0x01, bytes 2 and 3 get the part index little-endian
(writeUInt16LE), byte 4 gets the isLast flag, byte 5 gets keyIndex + 1
(one-based key). Byte writes are modelled modulo 256. -/
def writeFillImageCommandHeader (buffer : List Nat) (keyIndex partIndex : Nat)
    (isLast : Bool) ( _bodyLength : Nat) : List Nat :=
  (((((buffer.set 0 2).set 1 1).set 2 (partIndex % 256)).set 3
      (partIndex / 256 % 256)).set 4 (if isLast then 1 else 0)).set 5
    ((keyIndex + 1) % 256)

/-- One packet of a fill-image transfer: a zero byte buffer of length
MAX_PACKET_SIZE, the header written over it, then the payload chunk
copied in at offset PACKET_HEADER_LENGTH. -/
def mkPacket (MAX_PACKET_SIZE PACKET_HEADER_LENGTH keyIndex partIndex : Nat)
    (isLast : Bool) (chunk : List Nat) : List Nat :=
  bufferCopy
    (writeFillImageCommandHeader (List.replicate MAX_PACKET_SIZE 0) keyIndex partIndex
      isLast chunk.length)
    PACKET_HEADER_LENGTH chunk

/-- The loop body of generateFillImageWrites. The fuel argument bounds
the number of iterations; with fuel at least the length of rest and a
positive payload capacity the fuel never runs out, mirroring the source
loop which terminates exactly under that condition. -/
def generateFillImageWritesAux (MAX_PACKET_SIZE PACKET_HEADER_LENGTH keyIndex : Nat) :
    Nat → Nat → List Nat → List (List Nat)
  | 0, _, _ => []
  | fuel + 1, part, rest =>
    if rest.length = 0 then []
    else
      let MAX_PAYLOAD_SIZE := MAX_PACKET_SIZE - PACKET_HEADER_LENGTH
      let byteCount := min rest.length MAX_PAYLOAD_SIZE
      mkPacket MAX_PACKET_SIZE PACKET_HEADER_LENGTH keyIndex part
          (decide (rest.length ≤ MAX_PAYLOAD_SIZE)) (rest.take byteCount)
        :: generateFillImageWritesAux MAX_PACKET_SIZE PACKET_HEADER_LENGTH keyIndex fuel
            (part + 1) (rest.drop byteCount)

/-- generateFillImageWrites from the source: splits byteBuffer into
packets of size MAX_PACKET_SIZE, each with the command header and up to
MAX_PAYLOAD_SIZE payload bytes, part indices counting up from 0. -/
def generateFillImageWrites (MAX_PACKET_SIZE PACKET_HEADER_LENGTH keyIndex : Nat)
    (byteBuffer : List Nat) : List (List Nat) :=
  generateFillImageWritesAux MAX_PACKET_SIZE PACKET_HEADER_LENGTH keyIndex
    byteBuffer.length 0 byteBuffer

/-- Number of packets the framer emits for a payload of length L with
payload capacity P, namely the ceiling of L / P. -/
def numPackets (P L : Nat) : Nat := (L + P - 1) / P

/-- checkValidKeyIndex from the source: rejects keyIndex below 0 or at
least NUM_KEYS. -/
def checkValidKeyIndex (m : Model) (keyIndex : Int) : Except SDError Unit :=
  if keyIndex < 0 ∨ (m.NUM_KEYS : Int) ≤ keyIndex then .error .validation else .ok ()

/-- checkRGBValue from the source: rejects channel values outside 0 to 255. -/
def checkRGBValue (value : Int) : Except SDError Unit :=
  if value < 0 ∨ 255 < value then .error .validation else .ok ()

/-- fillImageRange from the source: re-validates the (already
transformed) key index, converts the image region, frames it into
packets and sends each packet in order. The returned list records the
sendReport calls in emission order. -/
def fillImageRange (m : Model) (keyIndex : Nat) (imageBuffer : List Nat)
    (sourceOffset sourceStride : Nat) : Except SDError (List Send) :=
  match checkValidKeyIndex m (keyIndex : Int) with
  | .error e => .error e
  | .ok _ =>
      .ok ((generateFillImageWrites m.fillImagePacketLength m.fillImageCommandHeaderLength
          keyIndex (m.convertFillImage imageBuffer sourceOffset sourceStride)).map Send.report)

/-- Buffer.alloc of a given size filled with the repeating three byte
pattern r, g, b, as built by fillColor. Channel values are already
validated, so their byte values are their toNat images. -/
def colorBuffer (size : Nat) (r g b : Int) : List Nat :=
  (List.range size).map (fun i => List.getD [r.toNat, g.toNat, b.toNat] (i % 3) 0)

/-- fillColor from the source: validate key and channels, build the
uniform color buffer, transform the key and delegate to fillImageRange. -/
def fillColor (m : Model) (keyIndex r g b : Int) : Except SDError (List Send) :=
  match checkValidKeyIndex m keyIndex, checkRGBValue r, checkRGBValue g, checkRGBValue b with
  | .error e, _, _, _ => .error e
  | _, .error e, _, _ => .error e
  | _, _, .error e, _ => .error e
  | _, _, _, .error e => .error e
  | .ok _, .ok _, .ok _, .ok _ =>
      fillImageRange m (m.transformKeyIndex keyIndex.toNat)
        (colorBuffer m.ICON_BYTES r g b) 0 (m.ICON_SIZE * 3)

/-- fillImage from the source: validate key, require the buffer length
to be exactly ICON_BYTES, transform the key and delegate to
fillImageRange. -/
def fillImage (m : Model) (keyIndex : Int) (imageBuffer : List Nat) :
    Except SDError (List Send) :=
  match checkValidKeyIndex m keyIndex with
  | .error e => .error e
  | .ok _ =>
      if imageBuffer.length ≠ m.ICON_BYTES then .error .validation
      else
        fillImageRange m (m.transformKeyIndex keyIndex.toNat) imageBuffer 0 (m.ICON_SIZE * 3)

/-- clearKey from the source: validate the key then fill it black. -/
def clearKey (m : Model) (keyIndex : Int) : Except SDError (List Send) :=
  match checkValidKeyIndex m keyIndex with
  | .error e => .error e
  | .ok _ => fillColor m keyIndex 0 0 0

/-- The key index fillPanel addresses for a grid cell: row times
COLUMNS plus the column, with the column mirrored on rtl models. -/
def panelKeyIndex (m : Model) (row column : Nat) : Nat :=
  row * m.COLUMNS +
    (match m.KEY_DIRECTION with
     | .ltr => column
     | .rtl => m.COLUMNS - column - 1)

/-- The arguments of the fillImageRange calls issued by the fillPanel
loop, in loop order: key index, source offset, source stride for each
cell, rows outer and columns inner. -/
def fillPanelCalls (m : Model) : List (Nat × Nat × Nat) :=
  ((List.range m.ROWS).map (fun row =>
    (List.range m.COLUMNS).map (fun column =>
      (panelKeyIndex m row column,
       m.ICON_SIZE * 3 * m.COLUMNS * row * m.ICON_SIZE + column * (m.ICON_SIZE * 3),
       m.ICON_SIZE * 3 * m.COLUMNS)))).flatten

/-- Sequential execution of a list of fillImageRange calls against one
image buffer, concatenating the transport calls and stopping at the
first failure, as the awaited loop in fillPanel does. -/
def runFills (m : Model) (imageBuffer : List Nat) :
    List (Nat × Nat × Nat) → Except SDError (List Send)
  | [] => .ok []
  | c :: rest =>
    match fillImageRange m c.1 imageBuffer c.2.1 c.2.2 with
    | .error e => .error e
    | .ok s =>
      match runFills m imageBuffer rest with
      | .error e => .error e
      | .ok r => .ok (s ++ r)

/-- fillPanel from the source: require the buffer length to be exactly
ICON_BYTES * NUM_KEYS, then issue one fillImageRange call per grid cell
sequentially in row-major loop order. -/
def fillPanel (m : Model) (imageBuffer : List Nat) : Except SDError (List Send) :=
  if imageBuffer.length ≠ m.ICON_BYTES * m.NUM_KEYS then .error .validation
  else runFills m imageBuffer (fillPanelCalls m)

/-- clearAllKeys from the source: sequential clearKey over all key
indices in increasing order. -/
def clearKeysList (m : Model) : List Int → Except SDError (List Send)
  | [] => .ok []
  | k :: rest =>
    match clearKey m k with
    | .error e => .error e
    | .ok s =>
      match clearKeysList m rest with
      | .error e => .error e
      | .ok r => .ok (s ++ r)

/-- clearAllKeys loops keyIndex from 0 to NUM_KEYS - 1. -/
def clearAllKeys (m : Model) : Except SDError (List Send) :=
  clearKeysList m ((List.range m.NUM_KEYS).map Int.ofNat)

/-- setBrightness from the source: reject percentages outside 0 to 100,
otherwise send the single 17 byte brightness feature report with the
percentage at index 5 (payload byte 4 after the report id). -/
def setBrightness (percentage : Int) : Except SDError (List Send) :=
  if percentage < 0 ∨ 100 < percentage then .error .validation
  else
    .ok [Send.feature
      [0x05,
       0x55, 0xaa, 0xd1, 0x01, percentage.toNat, 0x00, 0x00, 0x00,
       0x00, 0x00, 0x00, 0x00, 0x00, 0x00, 0x00, 0x00]]

/-- resetToLogo from the source: send the fixed 17 byte reset feature
report. -/
def resetToLogo : Except SDError (List Send) :=
  .ok [Send.feature
    [0x0b,
     0x63, 0x00, 0x00, 0x00, 0x00, 0x00, 0x00, 0x00,
     0x00, 0x00, 0x00, 0x00, 0x00, 0x00, 0x00, 0x00]]

/-- One scan of the input handler registered in the constructor,
starting at native slot i with n slots left to visit: read the pressed
flag from the report, transform the slot to its logical index, compare
with the recorded state at that logical index, and on a change record
the new value and emit a down or up event. The comparison uses an
optional lookup so that a read outside the recorded array never
compares equal, as the strict comparison against undefined behaves in
the source. -/
def handleInputFrom (transform : Nat → Nat) (data : Nat → Bool) :
    Nat → Nat → List Bool → List Bool × List KeyEvent
  | _, 0, state => (state, [])
  | i, n + 1, state =>
    let keyPressed := data i
    let keyIndex := transform i
    if state[keyIndex]? = some keyPressed then
      handleInputFrom transform data (i + 1) n state
    else
      let state2 := state.set keyIndex keyPressed
      let ev := if keyPressed then KeyEvent.down keyIndex else KeyEvent.up keyIndex
      let rest := handleInputFrom transform data (i + 1) n state2
      (rest.1, ev :: rest.2)

/-- The input handler: one pass over native slots 0 to NUM_KEYS - 1. -/
def handleInput (transform : Nat → Nat) (numKeys : Nat) (data : Nat → Bool)
    (state : List Bool) : List Bool × List KeyEvent :=
  handleInputFrom transform data 0 numKeys state

/-- keyState as initialized in the constructor: NUM_KEYS entries, all
false. -/
def initKeyState (m : Model) : List Bool := List.replicate m.NUM_KEYS false

/-- The mutable state of a controller instance that this layer owns:
just the per-key boolean press state. -/
structure CtrlState where
  keyState : List Bool
  deriving DecidableEq, Repr

/-- Transport queries that return data (device.getFeatureReport) and
the close call, recorded as outputs of the corresponding operations. -/
inductive Query
  | getFeature (id len : Nat)
  | close
  deriving DecidableEq, Repr

/-- fillColor as a state threading operation: the method body never
touches keyState. -/
def fillColorOp (m : Model) (st : CtrlState) (keyIndex r g b : Int) :
    CtrlState × Except SDError (List Send) :=
  (st, fillColor m keyIndex r g b)

/-- fillImage as a state threading operation. -/
def fillImageOp (m : Model) (st : CtrlState) (keyIndex : Int) (imageBuffer : List Nat) :
    CtrlState × Except SDError (List Send) :=
  (st, fillImage m keyIndex imageBuffer)

/-- fillPanel as a state threading operation. -/
def fillPanelOp (m : Model) (st : CtrlState) (imageBuffer : List Nat) :
    CtrlState × Except SDError (List Send) :=
  (st, fillPanel m imageBuffer)

/-- clearKey as a state threading operation. -/
def clearKeyOp (m : Model) (st : CtrlState) (keyIndex : Int) :
    CtrlState × Except SDError (List Send) :=
  (st, clearKey m keyIndex)

/-- clearAllKeys as a state threading operation. -/
def clearAllKeysOp (m : Model) (st : CtrlState) :
    CtrlState × Except SDError (List Send) :=
  (st, clearAllKeys m)

/-- setBrightness as a state threading operation. -/
def setBrightnessOp (st : CtrlState) (percentage : Int) :
    CtrlState × Except SDError (List Send) :=
  (st, setBrightness percentage)

/-- resetToLogo as a state threading operation. -/
def resetToLogoOp (st : CtrlState) : CtrlState × Except SDError (List Send) :=
  (st, resetToLogo)

/-- getFirmwareVersion issues getFeatureReport(4, 17) and decodes the
reply; it never touches keyState. -/
def getFirmwareVersionOp (st : CtrlState) : CtrlState × Query :=
  (st, .getFeature 4 17)

/-- getSerialNumber issues getFeatureReport(3, 17) and decodes the
reply; it never touches keyState. -/
def getSerialNumberOp (st : CtrlState) : CtrlState × Query :=
  (st, .getFeature 3 17)

/-- close delegates to device.close; it never touches keyState. -/
def closeOp (st : CtrlState) : CtrlState × Query :=
  (st, .close)

/-- The input handler as a state threading operation over keyState. -/
def handleInputOp (m : Model) (data : Nat → Bool) (st : CtrlState) :
    CtrlState × List KeyEvent :=
  let r := handleInput m.transformKeyIndex m.NUM_KEYS data st.keyState
  (⟨r.1⟩, r.2)

/-! Helper lemmas about the header writer and single packets. -/

/-- The byte that writeFillImageCommandHeader leaves at each position of
a fresh zero buffer, used to characterize packet headers. -/
def headerByte (keyIndex partIndex : Nat) (isLast : Bool) : Nat → Nat
  | 0 => 2
  | 1 => 1
  | 2 => partIndex % 256
  | 3 => partIndex / 256 % 256
  | 4 => if isLast then 1 else 0
  | 5 => (keyIndex + 1) % 256
  | _ + 6 => 0

theorem writeHeader_length (buffer : List Nat) (k p : Nat) (il : Bool) (bl : Nat) :
    (writeFillImageCommandHeader buffer k p il bl).length = buffer.length := by
  simp [writeFillImageCommandHeader]

theorem writeHeader_getElem? (M k p : Nat) (il : Bool) (bl j : Nat) (hM : 6 ≤ M) :
    (writeFillImageCommandHeader (List.replicate M 0) k p il bl)[j]? =
      if j < M then some (headerByte k p il j) else none := by
  have h0 : 0 < M := by omega
  have h1 : 1 < M := by omega
  have h2 : 2 < M := by omega
  have h3 : 3 < M := by omega
  have h4 : 4 < M := by omega
  have h5 : 5 < M := by omega
  rcases j with _ | _ | _ | _ | _ | _ | j
  · simp [writeFillImageCommandHeader, List.getElem?_set_ne, List.getElem?_set_self,
      headerByte, h0]
  · simp [writeFillImageCommandHeader, List.getElem?_set_ne, List.getElem?_set_self,
      headerByte, h1]
  · simp [writeFillImageCommandHeader, List.getElem?_set_ne, List.getElem?_set_self,
      headerByte, h2]
  · simp [writeFillImageCommandHeader, List.getElem?_set_ne, List.getElem?_set_self,
      headerByte, h3]
  · simp [writeFillImageCommandHeader, List.getElem?_set_ne, List.getElem?_set_self,
      headerByte, h4]
  · simp [writeFillImageCommandHeader, List.getElem?_set_ne, List.getElem?_set_self,
      headerByte, h5]
  · have h6 : ∀ i : Nat, i < 6 → i ≠ j + 6 := by omega
    simp [writeFillImageCommandHeader, List.getElem?_set_ne (h6 0 (by omega)),
      List.getElem?_set_ne (h6 1 (by omega)), List.getElem?_set_ne (h6 2 (by omega)),
      List.getElem?_set_ne (h6 3 (by omega)), List.getElem?_set_ne (h6 4 (by omega)),
      List.getElem?_set_ne (h6 5 (by omega)), headerByte, List.getElem?_replicate]

theorem mkPacket_length (M H k p : Nat) (il : Bool) (chunk : List Nat)
    (hHM : H ≤ M) (hc : chunk.length ≤ M - H) :
    (mkPacket M H k p il chunk).length = M := by
  simp [mkPacket, bufferCopy, writeHeader_length]
  omega

theorem mkPacket_drop (M H k p : Nat) (il : Bool) (chunk : List Nat) (hHM : H ≤ M) :
    (mkPacket M H k p il chunk).drop H =
      chunk ++ (writeFillImageCommandHeader (List.replicate M 0) k p il
        chunk.length).drop (H + chunk.length) := by
  have hlen : ((writeFillImageCommandHeader (List.replicate M 0) k p il
      chunk.length).take H).length = H := by
    simp [writeHeader_length]
    omega
  simp only [mkPacket, bufferCopy, List.append_assoc]
  exact List.drop_left' hlen

theorem mkPacket_payload (M H k p : Nat) (il : Bool) (chunk : List Nat) (hHM : H ≤ M) :
    ((mkPacket M H k p il chunk).drop H).take chunk.length = chunk := by
  rw [mkPacket_drop M H k p il chunk hHM]
  exact List.take_left' rfl

theorem mkPacket_getD_lt6 (M H k p : Nat) (il : Bool) (chunk : List Nat)
    (hH : 6 ≤ H) (hHM : H < M) (j : Nat) (hj : j < 6) :
    (mkPacket M H k p il chunk).getD j 0 = headerByte k p il j := by
  have hlen : ((writeFillImageCommandHeader (List.replicate M 0) k p il
      chunk.length).take H).length = H := by
    simp [writeHeader_length]
    omega
  have hjlen : j < ((writeFillImageCommandHeader (List.replicate M 0) k p il
      chunk.length).take H).length := by omega
  simp only [mkPacket, bufferCopy, List.append_assoc]
  rw [List.getD_append _ _ _ _ hjlen]
  rw [List.getD_eq_getElem?_getD, List.getElem?_take_of_lt (by omega : j < H),
    writeHeader_getElem? M k p il chunk.length j (by omega)]
  rw [if_pos (by omega)]
  rfl

theorem mkPacket_getD_pad (M H k p : Nat) (il : Bool) (chunk : List Nat)
    (hH : 6 ≤ H) (hHM : H ≤ M) (j : Nat) (hj : H + chunk.length ≤ j) :
    (mkPacket M H k p il chunk).getD j 0 = 0 := by
  rcases Nat.lt_or_ge j M with hjM | hjM
  · have hlen : ((writeFillImageCommandHeader (List.replicate M 0) k p il
        chunk.length).take H).length = H := by
      simp [writeHeader_length]
      omega
    simp only [mkPacket, bufferCopy, List.append_assoc]
    rw [List.getD_append_right _ _ _ _ (by omega), hlen,
      List.getD_append_right _ _ _ _ (by omega)]
    rw [List.getD_eq_getElem?_getD]
    have : H + chunk.length + (j - H - chunk.length) = j := by omega
    rw [List.getElem?_drop, this,
      writeHeader_getElem? M k p il chunk.length j (by omega), if_pos hjM]
    have hj6 : 6 ≤ j := by omega
    obtain ⟨j', rfl⟩ : ∃ j', j = j' + 6 := ⟨j - 6, by omega⟩
    rfl
  · apply List.getD_eq_default
    simp [mkPacket, bufferCopy, writeHeader_length]
    omega

/-! Arithmetic facts about the packet count. -/

theorem numPackets_zero (P : Nat) (hP : 0 < P) : numPackets P 0 = 0 := by
  unfold numPackets
  exact Nat.div_eq_of_lt (by omega)

theorem numPackets_of_pos (P L : Nat) (hP : 0 < P) (hL : 0 < L) :
    numPackets P L = (L - 1) / P + 1 := by
  unfold numPackets
  have h : L + P - 1 = (L - 1) + P := by omega
  rw [h, Nat.add_div_right _ hP]

theorem numPackets_pos (P L : Nat) (hP : 0 < P) (hL : 0 < L) : 0 < numPackets P L := by
  rw [numPackets_of_pos P L hP hL]
  exact Nat.succ_pos _

theorem numPackets_step (P L : Nat) (hP : 0 < P) (hL : 0 < L) :
    numPackets P L = numPackets P (L - min L P) + 1 := by
  rcases Nat.lt_or_ge P L with hlt | hle
  · rw [Nat.min_eq_right (by omega)]
    rw [numPackets_of_pos P L hP hL, numPackets_of_pos P (L - P) hP (by omega)]
    have h3 : L - 1 = (L - P - 1) + P := by omega
    rw [h3, Nat.add_div_right _ hP]
  · rw [Nat.min_eq_left hle, Nat.sub_self, numPackets_zero P hP,
      numPackets_of_pos P L hP hL, Nat.div_eq_of_lt (by omega)]

theorem mul_lt_of_lt_numPackets (P L i : Nat) (hP : 0 < P) (hi : i < numPackets P L) :
    i * P < L := by
  have h1 : (i + 1) * P ≤ numPackets P L * P :=
    Nat.mul_le_mul_right P (by omega)
  have h2 : numPackets P L * P ≤ L + P - 1 := by
    unfold numPackets
    exact Nat.div_mul_le_self (L + P - 1) P
  have h3 : (i + 1) * P = i * P + P := Nat.succ_mul i P
  have h4 : 0 < numPackets P L := by omega
  have h5 : 1 * P ≤ numPackets P L * P := Nat.mul_le_mul_right P h4
  omega

theorem isLast_false_of_lt (P L i : Nat) (hP : 0 < P) (hi : i + 1 < numPackets P L) :
    ¬ (L ≤ i * P + P) := by
  have h1 : (i + 2) * P ≤ numPackets P L * P :=
    Nat.mul_le_mul_right P (by omega)
  have h2 : numPackets P L * P ≤ L + P - 1 := by
    unfold numPackets
    exact Nat.div_mul_le_self (L + P - 1) P
  have h3 : (i + 2) * P = i * P + P + P := by
    rw [show i + 2 = (i + 1) + 1 from rfl, Nat.succ_mul, Nat.succ_mul]
  omega

theorem isLast_true_at_last (P L : Nat) (hP : 0 < P) (hL : 0 < L) :
    L ≤ (numPackets P L - 1) * P + P := by
  have h1 : (numPackets P L - 1) * P + P = numPackets P L * P := by
    have h2 : 0 < numPackets P L := numPackets_pos P L hP hL
    rw [← Nat.succ_mul]
    congr 1
    omega
  rw [h1]
  have h3 : P * ((L + P - 1) / P) + (L + P - 1) % P = L + P - 1 :=
    Nat.div_add_mod (L + P - 1) P
  have h4 : (L + P - 1) % P < P := Nat.mod_lt _ hP
  have h5 : numPackets P L * P = P * ((L + P - 1) / P) := by
    unfold numPackets
    exact Nat.mul_comm _ _
  omega

/-- Closed form of the framer loop: with enough fuel and positive
payload capacity, the loop emits one packet per payload chunk, part
indices counting up from the starting part. -/
theorem generateFillImageWritesAux_eq (M H k : Nat) (hH : H < M) (fuel : Nat) :
    ∀ (part : Nat) (rest : List Nat), rest.length ≤ fuel →
    generateFillImageWritesAux M H k fuel part rest =
      (List.range (numPackets (M - H) rest.length)).map (fun i =>
        mkPacket M H k (part + i) (decide (rest.length ≤ i * (M - H) + (M - H)))
          ((rest.drop (i * (M - H))).take (M - H))) := by
  have hPpos : 0 < M - H := by omega
  induction fuel with
  | zero =>
    intro part rest hfuel
    have hr : rest = [] := List.eq_nil_of_length_eq_zero (by omega)
    subst hr
    simp [generateFillImageWritesAux, numPackets_zero _ hPpos]
  | succ fuel ih =>
    intro part rest hfuel
    by_cases hr : rest.length = 0
    · have hr2 : rest = [] := List.eq_nil_of_length_eq_zero hr
      subst hr2
      simp [generateFillImageWritesAux, numPackets_zero _ hPpos]
    · have hL : 0 < rest.length := by omega
      have hstep := numPackets_step (M - H) rest.length hPpos hL
      have hcpos : 0 < min rest.length (M - H) := by
        simp [Nat.lt_min]
        omega
      have hrec := ih (part + 1) (rest.drop (min rest.length (M - H)))
        (by simp; omega)
      rw [show generateFillImageWritesAux M H k (fuel + 1) part rest =
          mkPacket M H k part (decide (rest.length ≤ M - H))
            (rest.take (min rest.length (M - H)))
          :: generateFillImageWritesAux M H k fuel (part + 1)
              (rest.drop (min rest.length (M - H))) from by
        simp [generateFillImageWritesAux, hr]]
      rw [hstep, List.range_succ_eq_map, List.map_cons, List.map_map, hrec]
      congr 1
      · have hhead : rest.take (min rest.length (M - H)) = rest.take (M - H) := by
          rcases Nat.le_total rest.length (M - H) with h | h
          · rw [Nat.min_eq_left h, List.take_length, List.take_of_length_le h]
          · rw [Nat.min_eq_right h]
        rw [hhead]
        simp
      · have hdlen : (rest.drop (min rest.length (M - H))).length =
            rest.length - min rest.length (M - H) := by simp
        rw [hdlen]
        apply List.map_congr_left
        intro i hi
        have hi2 : i < numPackets (M - H) (rest.length - min rest.length (M - H)) :=
          List.mem_range.mp hi
        have hnz : 0 < rest.length - min rest.length (M - H) := by
          by_contra hz
          have : rest.length - min rest.length (M - H) = 0 := by omega
          rw [this, numPackets_zero _ hPpos] at hi2
          omega
        have hcP : min rest.length (M - H) = M - H := by omega
        rw [hcP] at hnz ⊢
        have e1 : part + 1 + i = part + Nat.succ i := by omega
        have e2 : (decide (rest.length - (M - H) ≤ i * (M - H) + (M - H)))
            = (decide (rest.length ≤ Nat.succ i * (M - H) + (M - H))) := by
          rw [decide_eq_decide]
          have e3 : Nat.succ i * (M - H) = i * (M - H) + (M - H) := Nat.succ_mul _ _
          rw [e3]
          omega
        have e4 : (rest.drop (M - H)).drop (i * (M - H)) =
            rest.drop (Nat.succ i * (M - H)) := by
          rw [List.drop_drop]
          congr 1
          rw [Nat.succ_mul]
          omega
        simp only [Function.comp]
        rw [e1, e2, e4]

/-- Closed form of generateFillImageWrites. -/
theorem generateFillImageWrites_eq (M H k : Nat) (byteBuffer : List Nat) (hH : H < M) :
    generateFillImageWrites M H k byteBuffer =
      (List.range (numPackets (M - H) byteBuffer.length)).map (fun i =>
        mkPacket M H k i (decide (byteBuffer.length ≤ i * (M - H) + (M - H)))
          ((byteBuffer.drop (i * (M - H))).take (M - H))) := by
  unfold generateFillImageWrites
  rw [generateFillImageWritesAux_eq M H k hH byteBuffer.length 0 byteBuffer (Nat.le_refl _)]
  apply List.map_congr_left
  intro i hi
  simp

theorem getD_map_range {α : Type} (n i : Nat) (f : Nat → α) (d : α) (hi : i < n) :
    ((List.range n).map f).getD i d = f i := by
  have hlen : i < ((List.range n).map f).length := by simp [hi]
  rw [List.getD_eq_getElem _ _ hlen]
  simp

/-- Concatenating the consecutive chunks of size P covering a list
recovers the list. -/
theorem flatten_chunks (P : Nat) (hP : 0 < P) :
    ∀ (n : Nat) (l : List Nat), numPackets P l.length = n →
    ((List.range n).map (fun i => (l.drop (i * P)).take P)).flatten = l := by
  intro n
  induction n with
  | zero =>
    intro l hn
    have hlen : l.length = 0 := by
      by_contra hz
      have := numPackets_pos P l.length hP (by omega)
      omega
    have : l = [] := List.eq_nil_of_length_eq_zero hlen
    subst this
    simp
  | succ n ih =>
    intro l hn
    have hL : 0 < l.length := by
      by_contra hz
      have hlen : l.length = 0 := by omega
      rw [hlen, numPackets_zero P hP] at hn
      omega
    have hstep := numPackets_step P l.length hP hL
    rw [hn] at hstep
    have hn2 : numPackets P (l.drop P).length = n := by
      have hd : (l.drop P).length = l.length - P := by simp
      rcases Nat.le_total l.length P with h | h
      · have : min l.length P = l.length := Nat.min_eq_left h
        rw [this, Nat.sub_self, numPackets_zero P hP] at hstep
        rw [hd]
        have : l.length - P = 0 := by omega
        rw [this, numPackets_zero P hP]
        omega
      · have : min l.length P = P := Nat.min_eq_right h
        rw [this] at hstep
        rw [hd]
        omega
    rw [List.range_succ_eq_map, List.map_cons, List.map_map, List.flatten_cons]
    have htail : (List.map ((fun i => (l.drop (i * P)).take P) ∘ Nat.succ)
        (List.range n)).flatten = l.drop P := by
      have hcong : List.map ((fun i => (l.drop (i * P)).take P) ∘ Nat.succ)
          (List.range n) =
          List.map (fun i => ((l.drop P).drop (i * P)).take P) (List.range n) := by
        apply List.map_congr_left
        intro i hi
        simp only [Function.comp]
        rw [List.drop_drop]
        congr 2
        rw [Nat.succ_mul]
        omega
      rw [hcong]
      exact ih (l.drop P) hn2
    rw [htail]
    simp [Nat.zero_mul]

theorem gen_length (M H k : Nat) (buf : List Nat) (hHM : H < M) :
    (generateFillImageWrites M H k buf).length = numPackets (M - H) buf.length := by
  rw [generateFillImageWrites_eq M H k buf hHM]
  simp

theorem gen_getD (M H k i : Nat) (buf : List Nat) (hHM : H < M)
    (hi : i < numPackets (M - H) buf.length) :
    (generateFillImageWrites M H k buf).getD i [] =
      mkPacket M H k i (decide (buf.length ≤ i * (M - H) + (M - H)))
        ((buf.drop (i * (M - H))).take (M - H)) := by
  rw [generateFillImageWrites_eq M H k buf hHM]
  exact getD_map_range _ _ _ _ hi

theorem chunk_length (P L i : Nat) (buf : List Nat) (hbuf : buf.length = L) :
    ((buf.drop (i * P)).take P).length = min (L - i * P) P := by
  simp [hbuf, Nat.min_comm]

/-- Claim C1: for every encoded image byte sequence of positive length L
and payload capacity P = maxPacketSize - headerLength, the framer
produces exactly ceil(L / P) packets, the isLast byte (header byte 4) is
0 on every packet but the final one and 1 on the final one, and the
concatenation of the unpadded payload regions of the packets in
emission order equals the input. -/
theorem framer_packet_count_flags_concat (M H keyIndex : Nat) (buf : List Nat)
    (hH6 : 6 ≤ H) (hHM : H < M) (hL : 0 < buf.length) :
    (generateFillImageWrites M H keyIndex buf).length =
        (buf.length + (M - H) - 1) / (M - H)
    ∧ (∀ i, i + 1 < (generateFillImageWrites M H keyIndex buf).length →
        ((generateFillImageWrites M H keyIndex buf).getD i []).getD 4 0 = 0)
    ∧ (((generateFillImageWrites M H keyIndex buf).getD
        ((generateFillImageWrites M H keyIndex buf).length - 1) []).getD 4 0 = 1)
    ∧ ((List.range (generateFillImageWrites M H keyIndex buf).length).map (fun i =>
        (((generateFillImageWrites M H keyIndex buf).getD i []).drop H).take
          (min (buf.length - i * (M - H)) (M - H)))).flatten = buf := by
  have hP : 0 < M - H := by omega
  have hn := gen_length M H keyIndex buf hHM
  have hnpos : 0 < numPackets (M - H) buf.length :=
    numPackets_pos _ _ hP hL
  refine ⟨?_, ?_, ?_, ?_⟩
  · rw [hn]
    rfl
  · intro i hi
    rw [hn] at hi
    rw [gen_getD M H keyIndex i buf hHM (by omega)]
    rw [mkPacket_getD_lt6 M H keyIndex i _ _ hH6 hHM 4 (by omega)]
    have hfalse : ¬ (buf.length ≤ i * (M - H) + (M - H)) :=
      isLast_false_of_lt (M - H) buf.length i hP hi
    simp [headerByte, hfalse]
  · rw [hn]
    rw [gen_getD M H keyIndex _ buf hHM (by omega)]
    rw [mkPacket_getD_lt6 M H keyIndex _ _ _ hH6 hHM 4 (by omega)]
    have htrue : buf.length ≤ (numPackets (M - H) buf.length - 1) * (M - H) + (M - H) :=
      isLast_true_at_last (M - H) buf.length hP hL
    simp [headerByte, htrue]
  · rw [hn]
    have hcong : (List.range (numPackets (M - H) buf.length)).map (fun i =>
        (((generateFillImageWrites M H keyIndex buf).getD i []).drop H).take
          (min (buf.length - i * (M - H)) (M - H))) =
        (List.range (numPackets (M - H) buf.length)).map (fun i =>
          (buf.drop (i * (M - H))).take (M - H)) := by
      apply List.map_congr_left
      intro i hi
      have hi2 : i < numPackets (M - H) buf.length := List.mem_range.mp hi
      rw [gen_getD M H keyIndex i buf hHM hi2]
      rw [← chunk_length (M - H) buf.length i buf rfl]
      exact mkPacket_payload M H keyIndex i _ _ (by omega)
    rw [hcong]
    exact flatten_chunks (M - H) hP _ buf rfl

/-- Claim C1 witness: a concrete three packet transfer with packet size
24, header length 16 and a 20 byte payload. -/
theorem framer_packet_count_flags_concat_witness :
    (generateFillImageWrites 24 16 3 (List.range 20)).length =
        ((List.range 20).length + (24 - 16) - 1) / (24 - 16)
    ∧ (∀ i, i + 1 < (generateFillImageWrites 24 16 3 (List.range 20)).length →
        ((generateFillImageWrites 24 16 3 (List.range 20)).getD i []).getD 4 0 = 0)
    ∧ (((generateFillImageWrites 24 16 3 (List.range 20)).getD
        ((generateFillImageWrites 24 16 3 (List.range 20)).length - 1) []).getD 4 0 = 1)
    ∧ ((List.range (generateFillImageWrites 24 16 3 (List.range 20)).length).map (fun i =>
        (((generateFillImageWrites 24 16 3 (List.range 20)).getD i []).drop 16).take
          (min ((List.range 20).length - i * (24 - 16)) (24 - 16)))).flatten =
        List.range 20 :=
  framer_packet_count_flags_concat 24 16 3 (List.range 20) (by decide) (by decide)
    (by decide)

theorem writeHeader_getD (M k p : Nat) (il : Bool) (bl j : Nat) (hM : 6 ≤ M)
    (hj : j < M) :
    (writeFillImageCommandHeader (List.replicate M 0) k p il bl).getD j 0 =
      headerByte k p il j := by
  rw [List.getD_eq_getElem?_getD, writeHeader_getElem? M k p il bl j hM, if_pos hj]
  rfl

/-- Claim C2 counterexample: the claim asserts byte 3 of the header is
always 0x00, but writeUInt16LE stores the high byte of the part index
there: at part index 256 (which is below 2 to the 16) byte 3 is 1. -/
theorem header_byte3_counterexample :
    256 < 65536 ∧
    (writeFillImageCommandHeader (List.replicate 16 0) 0 256 false 0).getD 3 0 = 1 := by
  decide

/-- Claim C2 (amended): for every part index below 2 to the 16, every
isLast flag and every native key index below 255, the header written
onto a zero packet buffer has byte 0 = 0x02, byte 1 = 0x01, byte 2 the
low byte of the part index, byte 3 the high byte of the part index
(0x00 exactly when the part index is below 256), byte 4 the isLast flag
and byte 5 the one-based native key index. -/
theorem header_layout_bytes (M keyIndex partIndex : Nat) (isLast : Bool) (bl : Nat)
    (hM : 6 ≤ M) (hpart : partIndex < 65536) (hkey : keyIndex < 255) :
    (writeFillImageCommandHeader (List.replicate M 0) keyIndex partIndex isLast
        bl).getD 0 0 = 0x02
    ∧ (writeFillImageCommandHeader (List.replicate M 0) keyIndex partIndex isLast
        bl).getD 1 0 = 0x01
    ∧ (writeFillImageCommandHeader (List.replicate M 0) keyIndex partIndex isLast
        bl).getD 2 0 = partIndex % 256
    ∧ (writeFillImageCommandHeader (List.replicate M 0) keyIndex partIndex isLast
        bl).getD 3 0 = partIndex / 256
    ∧ (writeFillImageCommandHeader (List.replicate M 0) keyIndex partIndex isLast
        bl).getD 4 0 = (if isLast then 1 else 0)
    ∧ (writeFillImageCommandHeader (List.replicate M 0) keyIndex partIndex isLast
        bl).getD 5 0 = keyIndex + 1 := by
  have hdiv : partIndex / 256 < 256 := by
    apply Nat.div_lt_of_lt_mul
    omega
  refine ⟨?_, ?_, ?_, ?_, ?_, ?_⟩ <;>
    rw [writeHeader_getD M keyIndex partIndex isLast bl _ hM (by omega)]
  · rfl
  · rfl
  · rfl
  · show partIndex / 256 % 256 = partIndex / 256
    exact Nat.mod_eq_of_lt hdiv
  · rfl
  · show (keyIndex + 1) % 256 = keyIndex + 1
    exact Nat.mod_eq_of_lt (by omega)

/-- Claim C2 witness: the amended header layout at part index 300, with
isLast set and native key 7 in a 16 byte header. -/
theorem header_layout_bytes_witness :
    (writeFillImageCommandHeader (List.replicate 16 0) 7 300 true 0).getD 0 0 = 0x02
    ∧ (writeFillImageCommandHeader (List.replicate 16 0) 7 300 true 0).getD 1 0 = 0x01
    ∧ (writeFillImageCommandHeader (List.replicate 16 0) 7 300 true 0).getD 2 0 = 300 % 256
    ∧ (writeFillImageCommandHeader (List.replicate 16 0) 7 300 true 0).getD 3 0 = 300 / 256
    ∧ (writeFillImageCommandHeader (List.replicate 16 0) 7 300 true 0).getD 4 0 =
        (if true then 1 else 0)
    ∧ (writeFillImageCommandHeader (List.replicate 16 0) 7 300 true 0).getD 5 0 = 7 + 1 :=
  header_layout_bytes 16 7 300 true 0 (by decide) (by decide) (by decide)

/-- Claim C3 counterexample: the claim quantifies over every input byte
sequence including the empty one and asserts that exactly one packet of
the transfer carries the isLast flag, but the framer emits zero packets
for the empty input, so no packet carries the flag. -/
theorem framer_empty_counterexample :
    generateFillImageWrites 1024 16 0 [] = []
    ∧ (generateFillImageWrites 1024 16 0 []).countP (fun p => p.getD 4 0 == 1) = 0 := by
  decide

/-- Claim C3 (amended): for every input byte sequence, every emitted
packet has length exactly maxPacketSize, the payload region is zero
padded beyond the copied bytes, the part index field of packet i holds
the little-endian 16 bit encoding of i (so part indices are consecutive
from 0), and for every nonempty input exactly one packet carries the
isLast flag, namely the final one; the empty input emits no packets. -/
theorem framer_invariants (M H keyIndex : Nat) (buf : List Nat)
    (hH6 : 6 ≤ H) (hHM : H < M) :
    (∀ p ∈ generateFillImageWrites M H keyIndex buf, p.length = M)
    ∧ (∀ i, i < (generateFillImageWrites M H keyIndex buf).length →
        ∀ j, H + min (buf.length - i * (M - H)) (M - H) ≤ j →
        ((generateFillImageWrites M H keyIndex buf).getD i []).getD j 0 = 0)
    ∧ (∀ i, i < (generateFillImageWrites M H keyIndex buf).length →
        ((generateFillImageWrites M H keyIndex buf).getD i []).getD 2 0 = i % 256
        ∧ ((generateFillImageWrites M H keyIndex buf).getD i []).getD 3 0 = i / 256 % 256)
    ∧ (0 < buf.length →
        (generateFillImageWrites M H keyIndex buf).countP
            (fun p => p.getD 4 0 == 1) = 1
        ∧ ((generateFillImageWrites M H keyIndex buf).getD
            ((generateFillImageWrites M H keyIndex buf).length - 1) []).getD 4 0 = 1) := by
  have hP : 0 < M - H := by omega
  have hn := gen_length M H keyIndex buf hHM
  refine ⟨?_, ?_, ?_, ?_⟩
  · intro p hp
    rw [generateFillImageWrites_eq M H keyIndex buf hHM] at hp
    obtain ⟨i, hi, rfl⟩ := List.mem_map.mp hp
    apply mkPacket_length M H keyIndex i _ _ (by omega)
    simp
  · intro i hi j hj
    rw [hn] at hi
    rw [gen_getD M H keyIndex i buf hHM hi]
    apply mkPacket_getD_pad M H keyIndex i _ _ hH6 (by omega)
    rw [chunk_length (M - H) buf.length i buf rfl]
    exact hj
  · intro i hi
    rw [hn] at hi
    rw [gen_getD M H keyIndex i buf hHM hi]
    constructor
    · rw [mkPacket_getD_lt6 M H keyIndex i _ _ hH6 hHM 2 (by omega)]
      rfl
    · rw [mkPacket_getD_lt6 M H keyIndex i _ _ hH6 hHM 3 (by omega)]
      rfl
  · intro hL
    have hnpos : 0 < numPackets (M - H) buf.length := numPackets_pos _ _ hP hL
    constructor
    · rw [generateFillImageWrites_eq M H keyIndex buf hHM, List.countP_map]
      have hcong : ∀ i ∈ List.range (numPackets (M - H) buf.length),
          (((fun p : List Nat => p.getD 4 0 == 1) ∘ (fun i =>
            mkPacket M H keyIndex i (decide (buf.length ≤ i * (M - H) + (M - H)))
              ((buf.drop (i * (M - H))).take (M - H)))) i : Prop) ↔
          ((i == numPackets (M - H) buf.length - 1 : Bool) : Prop) := by
        intro i hi
        have hi2 : i < numPackets (M - H) buf.length := List.mem_range.mp hi
        simp only [Function.comp]
        rw [mkPacket_getD_lt6 M H keyIndex i _ _ hH6 hHM 4 (by omega)]
        by_cases hlast : i = numPackets (M - H) buf.length - 1
        · subst hlast
          have htrue : buf.length ≤
              (numPackets (M - H) buf.length - 1) * (M - H) + (M - H) :=
            isLast_true_at_last (M - H) buf.length hP hL
          simp [headerByte, htrue]
        · have hfalse : ¬ (buf.length ≤ i * (M - H) + (M - H)) :=
            isLast_false_of_lt (M - H) buf.length i hP (by omega)
          simp [headerByte, hfalse]
          omega
      rw [List.countP_congr hcong]
      have : List.countP (fun i => i == numPackets (M - H) buf.length - 1)
          (List.range (numPackets (M - H) buf.length)) =
          List.count (numPackets (M - H) buf.length - 1)
            (List.range (numPackets (M - H) buf.length)) := rfl
      rw [this]
      apply List.count_eq_one_of_mem (List.nodup_range _)
      rw [List.mem_range]
      omega
    · rw [hn]
      rw [gen_getD M H keyIndex _ buf hHM (by omega)]
      rw [mkPacket_getD_lt6 M H keyIndex _ _ _ hH6 hHM 4 (by omega)]
      have htrue : buf.length ≤
          (numPackets (M - H) buf.length - 1) * (M - H) + (M - H) :=
        isLast_true_at_last (M - H) buf.length hP hL
      simp [headerByte, htrue]

/-- Claim C3 witness: the amended invariants at packet size 24, header
length 16, on a 20 byte input. -/
theorem framer_invariants_witness :
    (∀ p ∈ generateFillImageWrites 24 16 9 (List.range 20), p.length = 24)
    ∧ (∀ i, i < (generateFillImageWrites 24 16 9 (List.range 20)).length →
        ∀ j, 16 + min ((List.range 20).length - i * (24 - 16)) (24 - 16) ≤ j →
        ((generateFillImageWrites 24 16 9 (List.range 20)).getD i []).getD j 0 = 0)
    ∧ (∀ i, i < (generateFillImageWrites 24 16 9 (List.range 20)).length →
        ((generateFillImageWrites 24 16 9 (List.range 20)).getD i []).getD 2 0 = i % 256
        ∧ ((generateFillImageWrites 24 16 9 (List.range 20)).getD i []).getD 3 0 =
            i / 256 % 256)
    ∧ (0 < (List.range 20).length →
        (generateFillImageWrites 24 16 9 (List.range 20)).countP
            (fun p => p.getD 4 0 == 1) = 1
        ∧ ((generateFillImageWrites 24 16 9 (List.range 20)).getD
            ((generateFillImageWrites 24 16 9 (List.range 20)).length - 1) []).getD 4 0
          = 1) :=
  framer_invariants 24 16 9 (List.range 20) (by decide) (by decide)

theorem checkValidKeyIndex_eq (m : Model) (k : Int) :
    checkValidKeyIndex m k =
      if 0 ≤ k ∧ k < (m.NUM_KEYS : Int) then .ok () else .error .validation := by
  unfold checkValidKeyIndex
  by_cases h : k < 0 ∨ (m.NUM_KEYS : Int) ≤ k
  · rw [if_pos h, if_neg (by omega)]
  · rw [if_neg h, if_pos (by omega)]

theorem checkRGBValue_eq (v : Int) :
    checkRGBValue v =
      if 0 ≤ v ∧ v ≤ 255 then .ok () else .error .validation := by
  unfold checkRGBValue
  by_cases h : v < 0 ∨ 255 < v
  · rw [if_pos h, if_neg (by omega)]
  · rw [if_neg h, if_pos (by omega)]

theorem fillImageRange_ok_of_lt (m : Model) (k : Nat) (hk : k < m.NUM_KEYS)
    (buf : List Nat) (off stride : Nat) :
    fillImageRange m k buf off stride =
      .ok ((generateFillImageWrites m.fillImagePacketLength
        m.fillImageCommandHeaderLength k (m.convertFillImage buf off stride)).map
          Send.report) := by
  unfold fillImageRange
  rw [checkValidKeyIndex_eq, if_pos ⟨Int.natCast_nonneg k, by exact_mod_cast hk⟩]

/-- A model whose key transform is not the identity and not the panel
mirror, used to witness the controller level claims on concrete data. -/
def sampleModel : Model where
  COLUMNS := 2
  ROWS := 1
  ICON_SIZE := 1
  KEY_DIRECTION := KeyDirection.ltr
  transformKeyIndex := fun i => 1 - i
  convertFillImage := fun b _ _ => b
  fillImagePacketLength := 24
  fillImageCommandHeaderLength := 16

/-- Claim C4: fillColor, fillImage and clearKey fail with a
ValidationError, before any transport call is issued, exactly when the
key index is outside the valid range, or a color channel is outside 0
to 255 for fillColor, or the buffer length differs from ICON_BYTES for
fillImage; on valid inputs no ValidationError is raised. The key
transform is assumed to stay inside the valid range, which the spec
guarantees by requiring it to be a bijection on the key range. -/
theorem fill_validation_iff (m : Model)
    (htr : ∀ i, i < m.NUM_KEYS → m.transformKeyIndex i < m.NUM_KEYS)
    (k r g b : Int) (buf : List Nat) :
    (fillColor m k r g b = .error .validation ↔
      ¬ (0 ≤ k ∧ k < (m.NUM_KEYS : Int) ∧ 0 ≤ r ∧ r ≤ 255 ∧ 0 ≤ g ∧ g ≤ 255
          ∧ 0 ≤ b ∧ b ≤ 255))
    ∧ (fillImage m k buf = .error .validation ↔
      ¬ (0 ≤ k ∧ k < (m.NUM_KEYS : Int) ∧ buf.length = m.ICON_BYTES))
    ∧ (clearKey m k = .error .validation ↔
      ¬ (0 ≤ k ∧ k < (m.NUM_KEYS : Int))) := by
  have hkey : ∀ hk0 : 0 ≤ k, ∀ hk1 : k < (m.NUM_KEYS : Int),
      m.transformKeyIndex k.toNat < m.NUM_KEYS := by
    intro hk0 hk1
    apply htr
    omega
  refine ⟨?_, ?_, ?_⟩
  · simp only [fillColor, checkValidKeyIndex_eq, checkRGBValue_eq]
    by_cases hk : 0 ≤ k ∧ k < (m.NUM_KEYS : Int)
    · by_cases hr : 0 ≤ r ∧ r ≤ 255
      · by_cases hg : 0 ≤ g ∧ g ≤ 255
        · by_cases hb : 0 ≤ b ∧ b ≤ 255
          · rw [if_pos hk, if_pos hr, if_pos hg, if_pos hb]
            rw [fillImageRange_ok_of_lt m _ (hkey hk.1 hk.2)]
            simp [hk, hr, hg, hb]
          · rw [if_pos hk, if_pos hr, if_pos hg, if_neg hb]
            simp
            omega
        · rw [if_pos hk, if_pos hr, if_neg hg]
          simp
          omega
      · rw [if_pos hk, if_neg hr]
        simp
        omega
    · rw [if_neg hk]
      simp
      omega
  · simp only [fillImage, checkValidKeyIndex_eq]
    by_cases hk : 0 ≤ k ∧ k < (m.NUM_KEYS : Int)
    · rw [if_pos hk]
      by_cases hbuf : buf.length = m.ICON_BYTES
      · rw [if_neg (by omega)]
        rw [fillImageRange_ok_of_lt m _ (hkey hk.1 hk.2)]
        simp [hk, hbuf]
      · rw [if_pos (by omega)]
        simp
        omega
    · rw [if_neg hk]
      simp
      omega
  · simp only [clearKey, fillColor, checkValidKeyIndex_eq, checkRGBValue_eq]
    by_cases hk : 0 ≤ k ∧ k < (m.NUM_KEYS : Int)
    · rw [if_pos hk, if_pos (by omega : (0:Int) ≤ 0 ∧ (0:Int) ≤ 255)]
      rw [fillImageRange_ok_of_lt m _ (hkey hk.1 hk.2)]
      simp [hk]
    · rw [if_neg hk]
      simp
      omega

/-- Claim C4 witness: on the sample model, valid key 1 with channel 3
and a 3 byte buffer. -/
theorem fill_validation_iff_witness :
    (fillColor sampleModel 1 3 3 3 = .error .validation ↔
      ¬ (0 ≤ (1 : Int) ∧ (1 : Int) < (sampleModel.NUM_KEYS : Int) ∧ 0 ≤ (3 : Int)
          ∧ (3 : Int) ≤ 255 ∧ 0 ≤ (3 : Int) ∧ (3 : Int) ≤ 255 ∧ 0 ≤ (3 : Int)
          ∧ (3 : Int) ≤ 255))
    ∧ (fillImage sampleModel 1 [5, 5, 5] = .error .validation ↔
      ¬ (0 ≤ (1 : Int) ∧ (1 : Int) < (sampleModel.NUM_KEYS : Int)
          ∧ ([5, 5, 5] : List Nat).length = sampleModel.ICON_BYTES))
    ∧ (clearKey sampleModel 1 = .error .validation ↔
      ¬ (0 ≤ (1 : Int) ∧ (1 : Int) < (sampleModel.NUM_KEYS : Int))) :=
  fill_validation_iff sampleModel (by decide) 1 3 3 3 [5, 5, 5]

/-- Claim C5: setBrightness fails with a ValidationError exactly when
the percentage is outside 0 to 100, with no transport call made, and
for every percentage in range it sends exactly one feature report with
report id 0x05 and the percentage at payload byte 4. -/
theorem setBrightness_spec (p : Int) :
    (setBrightness p = .error .validation ↔ (p < 0 ∨ 100 < p))
    ∧ (0 ≤ p → p ≤ 100 →
        setBrightness p = .ok [Send.feature
          [0x05, 0x55, 0xaa, 0xd1, 0x01, p.toNat, 0x00, 0x00, 0x00,
           0x00, 0x00, 0x00, 0x00, 0x00, 0x00, 0x00, 0x00]]) := by
  unfold setBrightness
  by_cases h : p < 0 ∨ 100 < p
  · rw [if_pos h]
    constructor
    · simp [h]
    · intro h1 h2
      omega
  · rw [if_neg h]
    constructor
    · simp
      omega
    · intro h1 h2
      rfl

/-- Claim C5 witness: brightness 100 produces the report with payload
byte 4 equal to 100. -/
theorem setBrightness_spec_witness :
    (setBrightness 100 = .error .validation ↔ ((100 : Int) < 0 ∨ 100 < (100 : Int)))
    ∧ (0 ≤ (100 : Int) → (100 : Int) ≤ 100 →
        setBrightness 100 = .ok [Send.feature
          [0x05, 0x55, 0xaa, 0xd1, 0x01, (100 : Int).toNat, 0x00, 0x00, 0x00,
           0x00, 0x00, 0x00, 0x00, 0x00, 0x00, 0x00, 0x00]]) :=
  setBrightness_spec 100

/-! Lemmas about the input handler scan. -/

theorem handleInputFrom_agree (transform : Nat → Nat) (data : Nat → Bool) :
    ∀ (n i : Nat) (st : List Bool),
    (∀ t, i ≤ t → t < i + n → st[transform t]? = some (data t)) →
    handleInputFrom transform data i n st = (st, []) := by
  intro n
  induction n with
  | zero =>
    intro i st h
    rfl
  | succ n ih =>
    intro i st h
    have hi : st[transform i]? = some (data i) := h i (Nat.le_refl i) (by omega)
    simp only [handleInputFrom, if_pos hi]
    exact ih (i + 1) st (fun t ht1 ht2 => h t (by omega) (by omega))

theorem handleInputFrom_single (transform : Nat → Nat) (data : Nat → Bool) :
    ∀ (n i j : Nat) (st : List Bool),
    i ≤ j → j < i + n →
    (∀ t, i ≤ t → t < i + n → t ≠ j → st[transform t]? = some (data t)) →
    st[transform j]? ≠ some (data j) →
    (∀ t, i ≤ t → t < i + n → transform t = transform j → t = j) →
    handleInputFrom transform data i n st =
      (st.set (transform j) (data j),
       [if data j then KeyEvent.down (transform j) else KeyEvent.up (transform j)]) := by
  intro n
  induction n with
  | zero =>
    intro i j st h1 h2
    omega
  | succ n ih =>
    intro i j st hij hjn hagree hch hinj
    by_cases hii : i = j
    · subst hii
      simp only [handleInputFrom, if_neg hch]
      have hrest : handleInputFrom transform data (i + 1) n
          (st.set (transform i) (data i)) = (st.set (transform i) (data i), []) := by
        apply handleInputFrom_agree
        intro t ht1 ht2
        have htne : t ≠ i := by omega
        have htr : transform t ≠ transform i := fun he =>
          htne (hinj t (by omega) (by omega) he)
        rw [List.getElem?_set_ne (fun he => htr he.symm)]
        exact hagree t (by omega) (by omega) htne
      rw [hrest]
    · have hlt : i < j := by omega
      have hi : st[transform i]? = some (data i) :=
        hagree i (Nat.le_refl i) (by omega) hii
      simp only [handleInputFrom, if_pos hi]
      exact ih (i + 1) j st (by omega) (by omega)
        (fun t ht1 ht2 htj => hagree t (by omega) (by omega) htj) hch
        (fun t ht1 ht2 he => hinj t (by omega) (by omega) he)

/-- Claim C6: a report that matches the recorded state produces no
events; a report that flips exactly one native slot from released to
pressed produces exactly one down event carrying the transformed
logical index and records the new value; symmetrically a single flip
from pressed to released produces exactly one up event. The transform
is assumed injective on the scanned slots, which the spec guarantees by
requiring it to be a bijection. -/
theorem tracker_edge_events (transform : Nat → Nat) (numKeys : Nat)
    (data : Nat → Bool) (state : List Bool)
    (hinj : ∀ i, i < numKeys → ∀ j, j < numKeys → transform i = transform j → i = j) :
    ((∀ i, i < numKeys → state[transform i]? = some (data i)) →
        handleInput transform numKeys data state = (state, []))
    ∧ (∀ j, j < numKeys →
        (∀ i, i < numKeys → i ≠ j → state[transform i]? = some (data i)) →
        state[transform j]? = some false → data j = true →
        handleInput transform numKeys data state =
          (state.set (transform j) true, [KeyEvent.down (transform j)]))
    ∧ (∀ j, j < numKeys →
        (∀ i, i < numKeys → i ≠ j → state[transform i]? = some (data i)) →
        state[transform j]? = some true → data j = false →
        handleInput transform numKeys data state =
          (state.set (transform j) false, [KeyEvent.up (transform j)])) := by
  refine ⟨?_, ?_, ?_⟩
  · intro hall
    exact handleInputFrom_agree transform data numKeys 0 state
      (fun t ht1 ht2 => hall t (by omega))
  · intro j hj hagree hst hdata
    have := handleInputFrom_single transform data numKeys 0 j state (by omega)
      (by omega) (fun t ht1 ht2 htj => hagree t (by omega) htj)
      (by rw [hst, hdata]; simp)
      (fun t ht1 ht2 he => hinj t (by omega) j hj he)
    rw [hdata] at this
    simpa using this
  · intro j hj hagree hst hdata
    have := handleInputFrom_single transform data numKeys 0 j state (by omega)
      (by omega) (fun t ht1 ht2 htj => hagree t (by omega) htj)
      (by rw [hst, hdata]; simp)
      (fun t ht1 ht2 he => hinj t (by omega) j hj he)
    rw [hdata] at this
    simpa using this

/-- Claim C6 witness: on a two key tracker with the swapping transform,
a report pressing native slot 0 produces one down event at logical
index 1. -/
theorem tracker_edge_events_witness :
    ((∀ i, i < 2 → ([false, false] : List Bool)[(fun i => 1 - i) i]? =
        some ((fun i => i == 0) i)) →
      handleInput (fun i => 1 - i) 2 (fun i => i == 0) [false, false] =
        ([false, false], []))
    ∧ (∀ j, j < 2 →
        (∀ i, i < 2 → i ≠ j → ([false, false] : List Bool)[(fun i => 1 - i) i]? =
          some ((fun i => i == 0) i)) →
        ([false, false] : List Bool)[(fun i => 1 - i) j]? = some false →
        ((fun i => i == 0) j) = true →
        handleInput (fun i => 1 - i) 2 (fun i => i == 0) [false, false] =
          (([false, false] : List Bool).set ((fun i => 1 - i) j) true,
           [KeyEvent.down ((fun i => 1 - i) j)]))
    ∧ (∀ j, j < 2 →
        (∀ i, i < 2 → i ≠ j → ([false, false] : List Bool)[(fun i => 1 - i) i]? =
          some ((fun i => i == 0) i)) →
        ([false, false] : List Bool)[(fun i => 1 - i) j]? = some true →
        ((fun i => i == 0) j) = false →
        handleInput (fun i => 1 - i) 2 (fun i => i == 0) [false, false] =
          (([false, false] : List Bool).set ((fun i => 1 - i) j) false,
           [KeyEvent.up ((fun i => 1 - i) j)])) :=
  tracker_edge_events (fun i => 1 - i) 2 (fun i => i == 0) [false, false] (by decide)

theorem getD_flatten_const_length {α : Type} (C : Nat) (d : α) :
    ∀ (L : List (List α)) (q r : Nat), (∀ l ∈ L, l.length = C) →
    q < L.length → r < C →
    L.flatten.getD (q * C + r) d = (L.getD q []).getD r d := by
  intro L
  induction L with
  | nil =>
    intro q r hall hq hr
    simp at hq
  | cons x xs ih =>
    intro q r hall hq hr
    have hx : x.length = C := hall x (by simp)
    cases q with
    | zero =>
      simp only [List.flatten_cons, Nat.zero_mul, Nat.zero_add]
      rw [List.getD_append _ _ _ _ (by omega)]
      rfl
    | succ q =>
      simp only [List.flatten_cons]
      have hc : x.length ≤ (q + 1) * C + r := by
        rw [Nat.succ_mul]
        omega
      rw [List.getD_append_right _ _ _ _ hc]
      have hidx : (q + 1) * C + r - x.length = q * C + r := by
        rw [Nat.succ_mul]
        omega
      rw [hidx]
      have := ih q r (fun l hl => hall l (by simp [hl])) (by simpa using hq) hr
      rw [this]
      rfl

theorem fillPanelCalls_getD (m : Model) (row col : Nat) (hrow : row < m.ROWS)
    (hcol : col < m.COLUMNS) :
    (fillPanelCalls m).getD (row * m.COLUMNS + col) (0, 0, 0) =
      (panelKeyIndex m row col,
       m.ICON_SIZE * 3 * m.COLUMNS * row * m.ICON_SIZE + col * (m.ICON_SIZE * 3),
       m.ICON_SIZE * 3 * m.COLUMNS) := by
  unfold fillPanelCalls
  rw [getD_flatten_const_length m.COLUMNS _ _ row col ?hall ?hq hcol]
  case hall =>
    intro l hl
    obtain ⟨row2, hrow2, rfl⟩ := List.mem_map.mp hl
    simp
  case hq =>
    simp [hrow]
  rw [getD_map_range _ _ _ _ hrow, getD_map_range _ _ _ _ hcol]

theorem fillPanelCalls_length (m : Model) :
    (fillPanelCalls m).length = m.NUM_KEYS := by
  unfold fillPanelCalls Model.NUM_KEYS
  rw [List.length_flatten, List.map_map]
  simp only [Function.comp_def, List.length_map, List.length_range]
  rw [List.map_const', List.sum_replicate, smul_eq_mul, List.length_range,
    Nat.mul_comm]

/-- Claim C7: on a valid panel buffer fillPanel runs exactly NUM_KEYS
sequential fills, in row-major loop order; the fill for a cell reads
the source at offset row * stride * iconSize + col * iconSize * 3 with
stride = iconSize * 3 * columns; and on a right-to-left model the key
addressed at panel column 0 is the key a left-to-right model addresses
at column columns - 1 of the same row. -/
theorem fillPanel_rowmajor_calls (m : Model) (buf : List Nat)
    (hbuf : buf.length = m.ICON_BYTES * m.NUM_KEYS) :
    fillPanel m buf = runFills m buf (fillPanelCalls m)
    ∧ (fillPanelCalls m).length = m.NUM_KEYS
    ∧ (∀ row, row < m.ROWS → ∀ col, col < m.COLUMNS →
        (fillPanelCalls m).getD (row * m.COLUMNS + col) (0, 0, 0) =
          (panelKeyIndex m row col,
           row * (m.ICON_SIZE * 3 * m.COLUMNS) * m.ICON_SIZE + col * (m.ICON_SIZE * 3),
           m.ICON_SIZE * 3 * m.COLUMNS))
    ∧ (m.KEY_DIRECTION = KeyDirection.rtl → 0 < m.COLUMNS → ∀ row,
        panelKeyIndex m row 0 =
          panelKeyIndex { m with KEY_DIRECTION := KeyDirection.ltr } row
            (m.COLUMNS - 1)) := by
  refine ⟨?_, fillPanelCalls_length m, ?_, ?_⟩
  · unfold fillPanel
    rw [if_neg (by omega)]
  · intro row hrow col hcol
    rw [fillPanelCalls_getD m row col hrow hcol]
    simp only [Prod.mk.injEq]
    exact ⟨trivial, by ring, trivial⟩
  · intro hdir hC row
    unfold panelKeyIndex
    rw [hdir]
    simp only []
    omega

/-- Claim C7 witness: the sample model with a six byte panel buffer. -/
theorem fillPanel_rowmajor_calls_witness :
    fillPanel sampleModel (List.replicate 6 0) =
        runFills sampleModel (List.replicate 6 0) (fillPanelCalls sampleModel)
    ∧ (fillPanelCalls sampleModel).length = sampleModel.NUM_KEYS
    ∧ (∀ row, row < sampleModel.ROWS → ∀ col, col < sampleModel.COLUMNS →
        (fillPanelCalls sampleModel).getD (row * sampleModel.COLUMNS + col) (0, 0, 0) =
          (panelKeyIndex sampleModel row col,
           row * (sampleModel.ICON_SIZE * 3 * sampleModel.COLUMNS) * sampleModel.ICON_SIZE
             + col * (sampleModel.ICON_SIZE * 3),
           sampleModel.ICON_SIZE * 3 * sampleModel.COLUMNS))
    ∧ (sampleModel.KEY_DIRECTION = KeyDirection.rtl → 0 < sampleModel.COLUMNS → ∀ row,
        panelKeyIndex sampleModel row 0 =
          panelKeyIndex { sampleModel with KEY_DIRECTION := KeyDirection.ltr } row
            (sampleModel.COLUMNS - 1)) :=
  fillPanel_rowmajor_calls sampleModel (List.replicate 6 0) (by decide)

theorem colorBuffer_uniform (n : Nat) (c : Int) :
    colorBuffer n c c c = List.replicate n c.toNat := by
  unfold colorBuffer
  have h : ∀ i : Nat, List.getD [c.toNat, c.toNat, c.toNat] (i % 3) 0 = c.toNat := by
    intro i
    rcases (show i % 3 = 0 ∨ i % 3 = 1 ∨ i % 3 = 2 by omega) with h | h | h <;>
      simp [h]
  rw [List.map_congr_left (fun i _ => h i), List.map_const']
  simp

/-- Claim C8: for a valid key and a channel value c in range, filling
the key with the solid color (c, c, c) and filling it with an
ICON_BYTES buffer of bytes all equal to c produce identical results,
in particular byte-identical packet sequences to the transport. -/
theorem fillColor_eq_fillImage_uniform (m : Model) (k c : Int)
    (hk0 : 0 ≤ k) (hk : k < (m.NUM_KEYS : Int)) (hc0 : 0 ≤ c) (hc : c ≤ 255) :
    fillColor m k c c c = fillImage m k (List.replicate m.ICON_BYTES c.toNat) := by
  simp only [fillColor, fillImage, checkValidKeyIndex_eq, checkRGBValue_eq]
  rw [if_pos ⟨hk0, hk⟩, if_pos ⟨hc0, hc⟩]
  rw [if_neg (by simp)]
  rw [colorBuffer_uniform]

/-- Claim C8 witness: key 1 and channel value 7 on the sample model. -/
theorem fillColor_eq_fillImage_uniform_witness :
    fillColor sampleModel 1 7 7 7 =
      fillImage sampleModel 1 (List.replicate sampleModel.ICON_BYTES (7 : Int).toNat) :=
  fillColor_eq_fillImage_uniform sampleModel 1 7 (by decide) (by decide) (by decide)
    (by decide)

theorem handleInputFrom_state_of_no_events (transform : Nat → Nat) (data : Nat → Bool) :
    ∀ (n i : Nat) (st : List Bool),
    (handleInputFrom transform data i n st).2 = [] →
    (handleInputFrom transform data i n st).1 = st := by
  intro n
  induction n with
  | zero =>
    intro i st h
    rfl
  | succ n ih =>
    intro i st h
    by_cases hc : st[transform i]? = some (data i)
    · simp only [handleInputFrom, if_pos hc] at h ⊢
      exact ih (i + 1) st h
    · simp only [handleInputFrom, if_neg hc] at h
      simp at h

/-- Claim C9: the per-key press state has length NUM_KEYS and is all
false at construction; every public operation leaves it unchanged; only
the input handler mutates it, and a scan that produces no events leaves
it unchanged. -/
theorem keyState_frame_conditions (m : Model) (st : CtrlState) (k r g b p : Int)
    (buf : List Nat) (data : Nat → Bool) :
    (initKeyState m).length = m.NUM_KEYS
    ∧ (∀ i, (initKeyState m).getD i false = false)
    ∧ (fillColorOp m st k r g b).1 = st
    ∧ (fillImageOp m st k buf).1 = st
    ∧ (fillPanelOp m st buf).1 = st
    ∧ (clearKeyOp m st k).1 = st
    ∧ (clearAllKeysOp m st).1 = st
    ∧ (setBrightnessOp st p).1 = st
    ∧ (resetToLogoOp st).1 = st
    ∧ (getFirmwareVersionOp st).1 = st
    ∧ (getSerialNumberOp st).1 = st
    ∧ (closeOp st).1 = st
    ∧ ((handleInputOp m data st).2 = [] → (handleInputOp m data st).1 = st) := by
  refine ⟨by simp [initKeyState], ?_, rfl, rfl, rfl, rfl, rfl, rfl, rfl, rfl, rfl,
    rfl, ?_⟩
  · intro i
    unfold initKeyState
    rw [List.getD_eq_getElem?_getD, List.getElem?_replicate]
    by_cases h : i < m.NUM_KEYS
    · rw [if_pos h]
      rfl
    · rw [if_neg h]
      rfl
  · intro h
    have h2 : (handleInput m.transformKeyIndex m.NUM_KEYS data st.keyState).1 =
        st.keyState :=
      handleInputFrom_state_of_no_events m.transformKeyIndex data m.NUM_KEYS 0
        st.keyState h
    show (⟨(handleInput m.transformKeyIndex m.NUM_KEYS data st.keyState).1⟩ :
      CtrlState) = st
    rw [h2]

/-- Claim C9 witness: the frame conditions on the sample model with a
two key state and an all released report. -/
theorem keyState_frame_conditions_witness :
    (initKeyState sampleModel).length = sampleModel.NUM_KEYS
    ∧ (∀ i, (initKeyState sampleModel).getD i false = false)
    ∧ (fillColorOp sampleModel ⟨[false, true]⟩ 0 0 0 0).1 = ⟨[false, true]⟩
    ∧ (fillImageOp sampleModel ⟨[false, true]⟩ 0 []).1 = ⟨[false, true]⟩
    ∧ (fillPanelOp sampleModel ⟨[false, true]⟩ []).1 = ⟨[false, true]⟩
    ∧ (clearKeyOp sampleModel ⟨[false, true]⟩ 0).1 = ⟨[false, true]⟩
    ∧ (clearAllKeysOp sampleModel ⟨[false, true]⟩).1 = ⟨[false, true]⟩
    ∧ (setBrightnessOp ⟨[false, true]⟩ 0).1 = ⟨[false, true]⟩
    ∧ (resetToLogoOp ⟨[false, true]⟩).1 = ⟨[false, true]⟩
    ∧ (getFirmwareVersionOp ⟨[false, true]⟩).1 = ⟨[false, true]⟩
    ∧ (getSerialNumberOp ⟨[false, true]⟩).1 = ⟨[false, true]⟩
    ∧ (closeOp ⟨[false, true]⟩).1 = ⟨[false, true]⟩
    ∧ ((handleInputOp sampleModel (fun _ => false) ⟨[false, true]⟩).2 = [] →
        (handleInputOp sampleModel (fun _ => false) ⟨[false, true]⟩).1 =
          ⟨[false, true]⟩) :=
  keyState_frame_conditions sampleModel ⟨[false, true]⟩ 0 0 0 0 0 [] (fun _ => false)

/-- Claim C10: fillPanel computes the addressed key from KEY_DIRECTION
alone and never applies transformKeyIndex (its calls are unchanged
under any replacement of the transform), while fillImage routes the
logical key through transformKeyIndex; hence whenever the transform
disagrees with the direction mirror at a position, the two address
different native keys. -/
theorem fillPanel_skips_transform (m : Model) (row col : Nat) (buf : List Nat)
    (hrow : row < m.ROWS) (hcol : col < m.COLUMNS)
    (hbuf : buf.length = m.ICON_BYTES) :
    ((fillPanelCalls m).getD (row * m.COLUMNS + col) (0, 0, 0)).1 =
        panelKeyIndex m row col
    ∧ (∀ g : Nat → Nat,
        fillPanelCalls { m with transformKeyIndex := g } = fillPanelCalls m)
    ∧ fillImage m ((row * m.COLUMNS + col : Nat) : Int) buf =
        fillImageRange m (m.transformKeyIndex (row * m.COLUMNS + col)) buf 0
          (m.ICON_SIZE * 3)
    ∧ (m.transformKeyIndex (row * m.COLUMNS + col) ≠ panelKeyIndex m row col →
        ((fillPanelCalls m).getD (row * m.COLUMNS + col) (0, 0, 0)).1 ≠
          m.transformKeyIndex (row * m.COLUMNS + col)) := by
  have hklt : row * m.COLUMNS + col < m.NUM_KEYS := by
    have h1 : (row + 1) * m.COLUMNS = row * m.COLUMNS + m.COLUMNS :=
      Nat.succ_mul row m.COLUMNS
    have h2 : (row + 1) * m.COLUMNS ≤ m.ROWS * m.COLUMNS :=
      Nat.mul_le_mul_right _ (by omega)
    have h3 : m.NUM_KEYS = m.ROWS * m.COLUMNS := Nat.mul_comm _ _
    omega
  refine ⟨?_, fun g => rfl, ?_, ?_⟩
  · rw [fillPanelCalls_getD m row col hrow hcol]
  · simp only [fillImage, checkValidKeyIndex_eq]
    rw [if_pos ⟨Int.natCast_nonneg _, by exact_mod_cast hklt⟩, if_neg (by omega)]
    rw [Int.toNat_natCast]
  · intro hne
    rw [fillPanelCalls_getD m row col hrow hcol]
    exact Ne.symm hne

/-- Claim C10 witness: on the sample model, whose transform swaps the
two keys while the direction is left-to-right, cell (0, 0). -/
theorem fillPanel_skips_transform_witness :
    ((fillPanelCalls sampleModel).getD (0 * sampleModel.COLUMNS + 0) (0, 0, 0)).1 =
        panelKeyIndex sampleModel 0 0
    ∧ (∀ g : Nat → Nat,
        fillPanelCalls { sampleModel with transformKeyIndex := g } =
          fillPanelCalls sampleModel)
    ∧ fillImage sampleModel ((0 * sampleModel.COLUMNS + 0 : Nat) : Int) [5, 5, 5] =
        fillImageRange sampleModel
          (sampleModel.transformKeyIndex (0 * sampleModel.COLUMNS + 0)) [5, 5, 5] 0
          (sampleModel.ICON_SIZE * 3)
    ∧ (sampleModel.transformKeyIndex (0 * sampleModel.COLUMNS + 0) ≠
          panelKeyIndex sampleModel 0 0 →
        ((fillPanelCalls sampleModel).getD (0 * sampleModel.COLUMNS + 0) (0, 0, 0)).1 ≠
          sampleModel.transformKeyIndex (0 * sampleModel.COLUMNS + 0)) :=
  fillPanel_skips_transform sampleModel 0 0 [5, 5, 5] (by decide) (by decide)
    (by decide)

end StreamDeck
